import Mathlib

/-!
Verification development for the JsonMcpTool core: a shallow embedding of
the path-resolution engine (`internal/pathresolver`), the operation layer
(`internal/operations`) and the file/cache layer (`internal/jsonhandler`),
together with theorems settling the frozen claims about them.

JSON trees are modelled by the inductive `JValue`; Go's
`map[string]interface{}` becomes an association list with unique-key
semantics given by first-match lookup.  Go functions that mutate maps in
place are modelled functionally: a mutation at a navigated parent map is
expressed as a structural rebuild at the parent's tree address.
-/

/-- A JSON value: the parsed form of Go's `interface{}` after
`json.Unmarshal` (string, float64, bool, nil, []interface{},
map[string]interface{}).  Numbers are abstracted as integers; no claim
depends on numeric semantics. -/
inductive JValue where
  | str : String → JValue
  | num : Int → JValue
  | bool : Bool → JValue
  | null : JValue
  | arr : List JValue → JValue
  | obj : List (String × JValue) → JValue
deriving Repr

/-- The contents of a JSON object (Go `map[string]interface{}`). -/
abbrev Obj := List (String × JValue)

/-- Go map read `m[k]` (`value, exists := m[k]`). -/
def getVal : Obj → String → Option JValue
  | [], _ => none
  | (k', v) :: rest, k => if k' = k then some v else getVal rest k

/-- Go map write `m[k] = v`: replaces the binding if present, otherwise
adds it. -/
def setVal : Obj → String → JValue → Obj
  | [], k, v => [(k, v)]
  | (k', v') :: rest, k, v =>
    if k' = k then (k, v) :: rest else (k', v') :: setVal rest k v

/-- Go map delete `delete(m, k)`. -/
def delVal : Obj → String → Obj
  | [], _ => []
  | (k', v') :: rest, k =>
    if k' = k then rest else (k', v') :: delVal rest k

namespace pathresolver

/-- Character-level worker for `SplitPath`: splits on `.` exactly as Go's
`strings.Split(keyPath, ".")` does (empty segments preserved). -/
def splitDotsAux : List Char → List Char → List String
  | [], acc => [String.mk acc.reverse]
  | c :: rest, acc =>
    if c = '.' then String.mk acc.reverse :: splitDotsAux rest []
    else splitDotsAux rest (c :: acc)

/-- `SplitPath` (pathresolver.go): empty path gives `[]`, otherwise split
on dots. -/
def SplitPath (keyPath : String) : List String :=
  if keyPath = "" then [] else splitDotsAux keyPath.data []

/-- Go `strings.Join(keys, ".")`. -/
def joinDots : List String → String
  | [] => ""
  | [x] => x
  | x :: xs => x ++ "." ++ joinDots xs

/-- The pathresolver error values (`ErrInvalidPath`, `ErrPathError`,
`ErrKeyNotFound`, `ErrPathConflict`, `ErrNotObject`), each carrying the
path text its Go error message identifies. -/
inductive NavErr where
  | invalidPath : NavErr
  | pathError : String → NavErr
  | keyNotFound : String → NavErr
  | pathConflict : String → NavErr
  | notObject : String → NavErr
deriving Repr, DecidableEq

/-- The split-navigation loop inside `NavigateToKey`: `walked` is the list
of segments already consumed (`keys[:i]`), `fullPath` the original path
used in the `KEY_NOT_FOUND` message. -/
def navSplit (cur : JValue) (ks : List String) (walked : List String)
    (fullPath : String) : Except NavErr JValue :=
  match ks with
  | [] => .ok cur
  | k :: rest =>
    match cur with
    | .obj fields =>
      match getVal fields k with
      | some v => navSplit v rest (walked ++ [k]) fullPath
      | none => .error (.keyNotFound fullPath)
    | _ => .error (.pathError (joinDots walked))

/-- `NavigateToKey` (pathresolver.go): validate the path, require an
object root, try the whole path as a literal key, then fall back to
split navigation. -/
def NavigateToKey (data : JValue) (keyPath : String) : Except NavErr JValue :=
  if keyPath = "" then .error .invalidPath
  else
    match data with
    | .obj fields =>
      match getVal fields keyPath with
      | some v => .ok v
      | none => navSplit data (SplitPath keyPath) [] keyPath
    | _ => .error (.pathError "root")

/-- `NavigateToParent` (pathresolver.go).  The Go function returns a
mutable reference to the parent map plus the final key; the functional
embedding returns the parent's tree address (the actual key sequence from
the root, accounting for the literal shortcut taken by `NavigateToKey` on
the parent path), the final key, and the parent's contents. -/
def NavigateToParent (data : JValue) (keyPath : String) :
    Except NavErr (List String × String × Obj) :=
  if keyPath = "" then .error .invalidPath
  else
    match data with
    | .obj fields =>
      match SplitPath keyPath with
      | [] => .error .invalidPath
      | [k] => .ok ([], k, fields)
      | k :: k2 :: rest =>
        let keys := k :: k2 :: rest
        let parentPath := joinDots keys.dropLast
        match NavigateToKey data parentPath with
        | .error e => .error e
        | .ok (.obj pf) =>
          let loc := if (getVal fields parentPath).isSome
            then [parentPath] else keys.dropLast
          .ok (loc, keys.getLastD "", pf)
        | .ok _ => .error (.pathError parentPath)
    | _ => .error (.pathError "root")

/-- `KeyExists` (pathresolver.go): false on an invalid path, false on a
non-object root, literal whole-path lookup, then `NavigateToKey`. -/
def KeyExists (data : JValue) (keyPath : String) : Bool :=
  if keyPath = "" then false
  else
    match data with
    | .obj fields =>
      (getVal fields keyPath).isSome ||
        (match NavigateToKey data keyPath with
          | .ok _ => true
          | .error _ => false)
    | _ => false

/-- The creation loop inside `CreateNestedPath`: walks `ks`, reusing an
existing object, failing with `PATH_CONFLICT` (naming `keys[:i+1]`) on a
non-object, and creating a fresh empty object when the key is absent.
Returns the rebuilt fields. -/
def createIntermediates (fields : Obj) (ks : List String)
    (walked : List String) : Except NavErr Obj :=
  match ks with
  | [] => .ok fields
  | k :: rest =>
    match getVal fields k with
    | some (.obj sub) =>
      match createIntermediates sub rest (walked ++ [k]) with
      | .ok sub2 => .ok (setVal fields k (.obj sub2))
      | .error e => .error e
    | some _ => .error (.pathConflict (joinDots (walked ++ [k])))
    | none =>
      match createIntermediates [] rest (walked ++ [k]) with
      | .ok sub2 => .ok (setVal fields k (.obj sub2))
      | .error e => .error e

/-- `CreateNestedPath` (pathresolver.go): validates the path and creates
all intermediate objects along the split path except the last segment.
The Go function returns the parent map; the functional embedding returns
the rebuilt root (the parent then sits at address `keys.dropLast`). -/
def CreateNestedPath (data : Obj) (keyPath : String) : Except NavErr Obj :=
  if keyPath = "" then .error .invalidPath
  else createIntermediates data (SplitPath keyPath).dropLast []

/-- Apply `f` to the object sitting at tree address `loc` (the functional
counterpart of mutating a navigated parent map in place).  Leaves the
tree unchanged if the address does not resolve to an object — callers
only use it at addresses they have navigated or created. -/
def modifyAtLoc : Obj → List String → (Obj → Obj) → Obj
  | fields, [], f => f fields
  | fields, k :: rest, f =>
    match getVal fields k with
    | some (.obj sub) => setVal fields k (.obj (modifyAtLoc sub rest f))
    | _ => fields

/-- `RemoveKeyAtPath` (pathresolver.go): validate, try the whole path as a
literal root key and delete it, otherwise delete the final key from the
parent found by `NavigateToParent`. -/
def RemoveKeyAtPath (data : Obj) (keyPath : String) :
    Except NavErr (JValue × Obj) :=
  if keyPath = "" then .error .invalidPath
  else
    match getVal data keyPath with
    | some v => .ok (v, delVal data keyPath)
    | none =>
      match NavigateToParent (.obj data) keyPath with
      | .error e => .error e
      | .ok (loc, finalKey, pf) =>
        match getVal pf finalKey with
        | some v => .ok (v, modifyAtLoc data loc (fun o => delVal o finalKey))
        | none => .error (.keyNotFound keyPath)

/-- `SetValueAtPath` (pathresolver.go): with `createPath` the parent comes
from `CreateNestedPath` (pure split, address `keys.dropLast`), otherwise
from `NavigateToParent`; the final key is then bound to `value` in that
parent. -/
def SetValueAtPath (data : Obj) (keyPath : String) (value : JValue)
    (createPath : Bool) : Except NavErr Obj :=
  if createPath then
    match CreateNestedPath data keyPath with
    | .error e => .error e
    | .ok data2 =>
      let keys := SplitPath keyPath
      .ok (modifyAtLoc data2 keys.dropLast
        (fun o => setVal o (keys.getLastD "") value))
  else
    match NavigateToParent (.obj data) keyPath with
    | .error e => .error e
    | .ok (loc, finalKey, _) =>
      .ok (modifyAtLoc data loc (fun o => setVal o finalKey value))

end pathresolver

namespace operations

/-- The operation-layer error kinds (operations.go sentinel errors, plus
the inline `PATH_CONFLICT`, `NOT_OBJECT` and generic `PATH_ERROR`
wrappings). -/
inductive OpErr where
  | keyNotFound : OpErr
  | keyExists : OpErr
  | invalidPath : OpErr
  | sameKey : OpErr
  | pathConflict : OpErr
  | pathError : OpErr
  | notObject : OpErr
  | addKeyError : OpErr
  | updateKeyError : OpErr
  | removeKeyError : OpErr
  | renameKeyError : OpErr
deriving Repr, DecidableEq

open pathresolver in
/-- `GetKey` (operations.go) after a successful load of `doc`: navigate
and translate the pathresolver error into the operation error kind. -/
def GetKey (doc : Obj) (keyPath : String) : Except OpErr JValue :=
  match NavigateToKey (.obj doc) keyPath with
  | .ok v => .ok v
  | .error (.keyNotFound _) => .error .keyNotFound
  | .error .invalidPath => .error .invalidPath
  | .error _ => .error .pathError

open pathresolver in
/-- `AddKey` (operations.go) after a successful load: reject an existing
path with `KEY_EXISTS`, then set with path creation.  The saved document
is the returned value; an error means `SaveJSON` is never reached. -/
def AddKey (doc : Obj) (keyPath : String) (value : JValue) :
    Except OpErr Obj :=
  if pathresolver.KeyExists (.obj doc) keyPath then .error .keyExists
  else
    match SetValueAtPath doc keyPath value true with
    | .ok d => .ok d
    | .error (.pathConflict _) => .error .pathConflict
    | .error _ => .error .addKeyError

open pathresolver in
/-- `UpdateKey` (operations.go) after a successful load: validate the
path, require existence, then set without path creation. -/
def UpdateKey (doc : Obj) (keyPath : String) (value : JValue) :
    Except OpErr Obj :=
  if keyPath = "" then .error .invalidPath
  else if ! pathresolver.KeyExists (.obj doc) keyPath then .error .keyNotFound
  else
    match SetValueAtPath doc keyPath value false with
    | .ok d => .ok d
    | .error (.keyNotFound _) => .error .keyNotFound
    | .error _ => .error .updateKeyError

open pathresolver in
/-- `RemoveKey` (operations.go) after a successful load: validate,
require existence, then remove, returning the removed value and the new
document. -/
def RemoveKey (doc : Obj) (keyPath : String) :
    Except OpErr (JValue × Obj) :=
  if keyPath = "" then .error .invalidPath
  else if ! pathresolver.KeyExists (.obj doc) keyPath then .error .keyNotFound
  else
    match RemoveKeyAtPath doc keyPath with
    | .ok r => .ok r
    | .error _ => .error .removeKeyError

open pathresolver in
/-- `RenameKey` (operations.go) after a successful load: same-path check
first, then path validation, existence of the old path, absence of the
new path, fetch the value, set it at the new path (creating structure),
and finally remove the old path.  Only then is `SaveJSON` reached. -/
def RenameKey (doc : Obj) (oldPath newPath : String) : Except OpErr Obj :=
  if oldPath = newPath then .error .sameKey
  else if oldPath = "" then .error .invalidPath
  else if newPath = "" then .error .invalidPath
  else if ! pathresolver.KeyExists (.obj doc) oldPath then .error .keyNotFound
  else if pathresolver.KeyExists (.obj doc) newPath then .error .keyExists
  else
    match NavigateToKey (.obj doc) oldPath with
    | .error _ => .error .renameKeyError
    | .ok v =>
      match SetValueAtPath doc newPath v true with
      | .error _ => .error .renameKeyError
      | .ok d2 =>
        match RemoveKeyAtPath d2 oldPath with
        | .error _ => .error .renameKeyError
        | .ok (_, d3) => .ok d3

/-- `KeyExists` (operations.go) after a successful load: returns the
resolver's boolean and never an error. -/
def KeyExists (doc : Obj) (keyPath : String) : Except OpErr Bool :=
  .ok (pathresolver.KeyExists (.obj doc) keyPath)

/-- The spec's rename decomposition, modelled from the spec's words:
`value = Get(old); Remove(old); Add(new, value)`, aborting on the first
failure.  Used only to compare against `RenameKey`. -/
def seqRename (doc : Obj) (oldPath newPath : String) : Except OpErr Obj :=
  match GetKey doc oldPath with
  | .error e => .error e
  | .ok v =>
    match RemoveKey doc oldPath with
    | .error e => .error e
    | .ok (_, d1) => AddKey d1 newPath v

/-- On-disk content after running `AddKey` against a file holding `st`:
the operation performs its single `SaveJSON` only on success, so a
failure leaves the file holding `st`. -/
def runAddKey (st : Obj) (keyPath : String) (value : JValue) : Obj :=
  match AddKey st keyPath value with
  | .ok d => d
  | .error _ => st

/-- On-disk content after `UpdateKey` (save only on success). -/
def runUpdateKey (st : Obj) (keyPath : String) (value : JValue) : Obj :=
  match UpdateKey st keyPath value with
  | .ok d => d
  | .error _ => st

/-- On-disk content after `RemoveKey` (save only on success). -/
def runRemoveKey (st : Obj) (keyPath : String) : Obj :=
  match RemoveKey st keyPath with
  | .ok r => r.2
  | .error _ => st

/-- On-disk content after `RenameKey` (save only on success). -/
def runRenameKey (st : Obj) (oldPath newPath : String) : Obj :=
  match RenameKey st oldPath newPath with
  | .ok d => d
  | .error _ => st

end operations

namespace jsonhandler

/-- The mutable fields of `JSONHandler` (jsonhandler.go): the cached
document and the file modification time recorded at cache-fill time.
Modification times are abstracted as naturals. -/
structure Handler where
  cachedData : Option Obj
  fileMTime : Nat
deriving Repr

/-- The state of the target file: absent, or present with parsed content
and a modification time.  Byte-level content is abstracted by its parse;
claims about the cache only compare documents and mtimes. -/
structure FSState where
  file : Option (Obj × Nat)
deriving Repr

/-- Load errors surfaced by `LoadJSON`. -/
inductive LoadErr where
  | fileNotFound : LoadErr
deriving Repr, DecidableEq

/-- `LoadJSON` (jsonhandler.go): stat the file, serve the cache when
`useCache` is set, a cache entry exists and its recorded mtime equals the
file's current mtime; otherwise read and parse, updating the cache only
when `useCache` is set.  The returned `Bool` records whether the file was
(re-)read. -/
def LoadJSON (h : Handler) (fs : FSState) (useCache : Bool) :
    Except LoadErr (Obj × Handler × Bool) :=
  match fs.file with
  | none => .error .fileNotFound
  | some (content, mtime) =>
    match useCache, h.cachedData with
    | true, some cached =>
      if h.fileMTime = mtime then .ok (cached, h, false)
      else .ok (content, ⟨some content, mtime⟩, true)
    | true, none => .ok (content, ⟨some content, mtime⟩, true)
    | false, _ => .ok (content, h, true)

/-- `SaveJSON` (jsonhandler.go): atomically replace the file with `data`
(the file system assigns the fresh modification time `newMTime`), then
update the cache to the just-written document and the newly observed
mtime. -/
def SaveJSON (_h : Handler) (_fs : FSState) (data : Obj) (newMTime : Nat) :
    Handler × FSState :=
  ((⟨some data, newMTime⟩ : Handler), (⟨some (data, newMTime)⟩ : FSState))

/-- The loop of `getLineColumn` (jsonhandler.go): consume at most
`offset` characters, bumping the line and resetting the column on each
line feed. -/
def glcAux : List Char → Nat → Nat → Nat → Nat × Nat
  | _, 0, line, col => (line, col)
  | [], _ + 1, line, col => (line, col)
  | c :: rest, k + 1, line, col =>
    if c = '\n' then glcAux rest k (line + 1) 1
    else glcAux rest k line (col + 1)

/-- `getLineColumn` (jsonhandler.go): 1-based line/column of a byte
offset. -/
def getLineColumn (data : List Char) (offset : Nat) : Nat × Nat :=
  glcAux data offset 1 1

/-- Outcome of Go's `json.Unmarshal` on the file content, abstracted:
success, a `*json.SyntaxError` carrying a byte offset, or another
error. -/
inductive ParseOutcome where
  | ok : ParseOutcome
  | errAt : Nat → ParseOutcome
  | errOther : ParseOutcome
deriving Repr, DecidableEq

/-- `ValidationError` (jsonhandler.go), position fields only. -/
structure VError where
  line : Nat
  column : Nat
deriving Repr, DecidableEq

/-- `ValidationResult` (jsonhandler.go), the fields the claims speak
about. -/
structure VResult where
  valid : Bool
  errorType : String
  error : Option VError
deriving Repr, DecidableEq

/-- The syntax-validation routine of jsonhandler.go (Go name
`ValidateJSONSyntax`), with the file content and the parser outcome as
inputs: missing file, empty content (both the zero-size stat branch and
the empty-read branch produce line 1 column 1), parser failure with or
without an offset, success. -/
def ValidateJSONContent (content : Option (List Char))
    (parse : ParseOutcome) : VResult :=
  match content with
  | none => ⟨false, "FILE_NOT_FOUND", some ⟨0, 0⟩⟩
  | some data =>
    if data.length = 0 then ⟨false, "PARSE_ERROR", some ⟨1, 1⟩⟩
    else
      match parse with
      | .ok => ⟨true, "", none⟩
      | .errAt off =>
        ⟨false, "PARSE_ERROR",
          some ⟨(getLineColumn data off).1, (getLineColumn data off).2⟩⟩
      | .errOther => ⟨false, "PARSE_ERROR", some ⟨0, 0⟩⟩

/-- Modelled from the spec: "a parser failure is translated into a
1-based line/column position by scanning the byte offset reported by the
parser and counting line feeds consumed up to that offset", the column
restarting after each line feed — so the line is one more than the number
of line feeds among the consumed bytes and the column is one more than
the number of consumed bytes after the last consumed line feed. -/
def specLineCol (data : List Char) (offset : Nat) : Nat × Nat :=
  let pre := data.take offset
  (1 + pre.count '\n',
   1 + (pre.reverse.takeWhile (fun c => c != '\n')).length)

end jsonhandler

/-! ## Basic lemmas about the association-list map operations -/

theorem getVal_setVal_self (o : Obj) (k : String) (v : JValue) :
    getVal (setVal o k v) k = some v := by
  induction o with
  | nil => simp [setVal, getVal]
  | cons hd tl ih =>
    obtain ⟨k', v'⟩ := hd
    by_cases h : k' = k
    · simp [setVal, getVal, h]
    · simp [setVal, getVal, h, ih]

theorem getVal_setVal_ne (o : Obj) (k : String) (v : JValue) (k' : String)
    (h : k' ≠ k) : getVal (setVal o k v) k' = getVal o k' := by
  have h' : ¬ k = k' := Ne.symm h
  induction o with
  | nil => simp [setVal, getVal, h']
  | cons hd tl ih =>
    obtain ⟨k0, v0⟩ := hd
    by_cases h0 : k0 = k
    · subst h0
      simp [setVal, getVal, h']
    · simp [setVal, getVal, h0, ih]

theorem getVal_delVal_ne (o : Obj) (k k' : String) (h : k' ≠ k) :
    getVal (delVal o k) k' = getVal o k' := by
  have h' : ¬ k = k' := Ne.symm h
  induction o with
  | nil => simp [delVal]
  | cons hd tl ih =>
    obtain ⟨k0, v0⟩ := hd
    by_cases h0 : k0 = k
    · subst h0
      simp [delVal, getVal, h']
    · simp [delVal, getVal, h0, ih]

theorem delVal_setVal_comm (o : Obj) (n old : String) (v : JValue)
    (h : n ≠ old) : delVal (setVal o n v) old = setVal (delVal o old) n v := by
  have h' : ¬ old = n := Ne.symm h
  induction o with
  | nil => simp [setVal, delVal, h]
  | cons hd tl ih =>
    obtain ⟨k0, v0⟩ := hd
    by_cases h0 : k0 = n
    · subst h0
      simp [setVal, delVal, h]
    · by_cases h1 : k0 = old
      · subst h1
        simp [setVal, delVal, h0, h']
      · simp [setVal, delVal, h0, h1, ih]

namespace pathresolver

/-! ## Unfolding lemmas for the resolver -/

theorem NavigateToKey_eq (fields : Obj) (p : String) (hp : p ≠ "") :
    NavigateToKey (.obj fields) p
      = match getVal fields p with
        | some v => .ok v
        | none => navSplit (.obj fields) (SplitPath p) [] p := by
  unfold NavigateToKey
  rw [if_neg hp]

theorem KeyExists_eq (fields : Obj) (p : String) (hp : p ≠ "") :
    KeyExists (.obj fields) p
      = ((getVal fields p).isSome ||
          (match NavigateToKey (.obj fields) p with
            | .ok _ => true
            | .error _ => false)) := by
  unfold KeyExists
  rw [if_neg hp]

theorem splitDotsAux_no_dot (cs : List Char) :
    ∀ acc : List Char, '.' ∉ cs →
      splitDotsAux cs acc = [String.mk (acc.reverse ++ cs)] := by
  induction cs with
  | nil => intro acc _; simp [splitDotsAux]
  | cons c rest ih =>
    intro acc hmem
    have hc : ¬ c = '.' := fun e => hmem (by rw [e]; exact List.mem_cons_self _ _)
    have hrest : '.' ∉ rest := fun e => hmem (List.mem_cons_of_mem _ e)
    simp [splitDotsAux, hc, ih (c :: acc) hrest, List.append_assoc]

theorem SplitPath_no_dot (s : String) (hs : s ≠ "") (hd : '.' ∉ s.data) :
    SplitPath s = [s] := by
  unfold SplitPath
  rw [if_neg hs, splitDotsAux_no_dot s.data [] hd]
  rfl

end pathresolver

/-! ## Claim C1: literal dotted root keys win over split navigation -/

/-- Claim C1: for every document whose root object contains a key `k`
that itself contains dots, `GetKey` resolves the path string `k` to the
root-level entry for `k`, even when splitting `k` on dots would also
resolve to a nested value: the literal whole-string match is tried before
split navigation. -/
theorem C1_literal_dotted_root_key (fields : Obj) (k : String) (v : JValue)
    (hdot : '.' ∈ k.data) (hget : getVal fields k = some v) :
    operations.GetKey fields k = .ok v ∧
    pathresolver.NavigateToKey (.obj fields) k = .ok v := by
  have hk : k ≠ "" := by
    intro e
    subst e
    have hnil : (("" : String).data) = [] := rfl
    rw [hnil] at hdot
    exact List.not_mem_nil _ hdot
  have hnav : pathresolver.NavigateToKey (.obj fields) k = .ok v := by
    rw [pathresolver.NavigateToKey_eq fields k hk, hget]
  refine ⟨?_, hnav⟩
  unfold operations.GetKey
  rw [hnav]

/-- Witness for C1 at the document `{"a.b": 1, "a": {"b": 2}}`, where the
split reading would give the nested `2` but the literal key gives `1`. -/
theorem C1_witness :
    operations.GetKey [("a.b", .num 1), ("a", .obj [("b", .num 2)])] "a.b"
        = .ok (.num 1) ∧
    pathresolver.NavigateToKey
        (.obj [("a.b", .num 1), ("a", .obj [("b", .num 2)])]) "a.b"
        = .ok (.num 1) :=
  C1_literal_dotted_root_key _ "a.b" _ (by decide) rfl

/-! ## Claim C3: error kind and path identified for non-object intermediates -/

/-- Counterexample to C4 as stated: `KeyExists` on the structurally
invalid empty path returns `false` with no error at all — it does not
fail with `INVALID_PATH` (the resolver swallows the path-validation error
and returns `false`, pinned by the repository's own pathresolver test for
the empty path). -/
theorem C4_counterexample :
    operations.KeyExists [("a", .num 1)] "" = .ok false ∧
    operations.KeyExists [("a", .num 1)] "" ≠ .error .invalidPath := by
  refine ⟨rfl, ?_⟩
  have h : operations.KeyExists [("a", .num 1)] "" = .ok false := rfl
  rw [h]
  intro hcontra
  exact Except.noConfusion hcontra

/-- Claim C4 as amended: for every document, `KeyExists` returns a
boolean and never fails for an absent key — and it never fails for a
structurally invalid path string either: the empty path yields `false`
with no error (after a successful load, the only `KeyExists` failures are
file-level load errors). -/
theorem C4_amended (doc : Obj) (p : String) :
    ∃ b : Bool, operations.KeyExists doc p = .ok b ∧ (p = "" → b = false) := by
  refine ⟨pathresolver.KeyExists (.obj doc) p, rfl, ?_⟩
  intro hp
  rw [hp]
  unfold pathresolver.KeyExists
  simp

/-- Witness for C4 (amended) at the empty document and empty path. -/
theorem C4_witness :
    ∃ b : Bool, operations.KeyExists [] "" = .ok b ∧ ("" = "" → b = false) :=
  C4_amended [] ""

/-! ## Claim C7: the literal match is applied only at the root level -/

/-- Claim C7: the literal whole-string match is attempted only at the
root level and never re-attempted at intermediate levels.  For every
document of the shape `{"a": {..no "b".., "b.c": x, ..}}` that has no
literal root key `"a.b.c"`, `GetKey` with path `"a.b.c"` fails with
`KEY_NOT_FOUND`: the nested dotted key `"b.c"` is unreachable by split
navigation. -/
theorem C7_no_nested_literal_match (root inner : Obj) (x : JValue)
    (h1 : getVal root "a.b.c" = none)
    (h2 : getVal root "a" = some (.obj inner))
    (h3 : getVal inner "b" = none)
    (_h4 : getVal inner "b.c" = some x) :
    pathresolver.NavigateToKey (.obj root) "a.b.c"
        = .error (.keyNotFound "a.b.c") ∧
    operations.GetKey root "a.b.c" = .error .keyNotFound := by
  have hp : ("a.b.c" : String) ≠ "" := by decide
  have hsplit : pathresolver.SplitPath "a.b.c" = ["a", "b", "c"] := rfl
  have hnav : pathresolver.NavigateToKey (.obj root) "a.b.c"
      = .error (.keyNotFound "a.b.c") := by
    rw [pathresolver.NavigateToKey_eq root "a.b.c" hp, h1, hsplit]
    simp [pathresolver.navSplit, h2, h3]
  refine ⟨hnav, ?_⟩
  unfold operations.GetKey
  rw [hnav]

/-- Witness for C7 at the document `{"a": {"b.c": "x"}}`. -/
theorem C7_witness :
    pathresolver.NavigateToKey (.obj [("a", .obj [("b.c", .str "x")])])
        "a.b.c" = .error (.keyNotFound "a.b.c") ∧
    operations.GetKey [("a", .obj [("b.c", .str "x")])] "a.b.c"
        = .error .keyNotFound :=
  C7_no_nested_literal_match [("a", .obj [("b.c", .str "x")])]
    [("b.c", .str "x")] (.str "x") rfl rfl rfl rfl

/-! ## Claim C10: existence agrees with read-style lookup -/

/-- Claim C10: for every document whose root is an object and every path
string, the existence check returns `true` exactly when the read-style
lookup on the same document and path succeeds — in particular the two
agree on empty paths, literal dotted keys, and paths through non-object
values. -/
theorem C10_exists_iff_lookup (fields : Obj) (p : String) :
    (pathresolver.KeyExists (.obj fields) p = true ↔
      ∃ v, pathresolver.NavigateToKey (.obj fields) p = .ok v) ∧
    (operations.KeyExists fields p = .ok true ↔
      ∃ v, operations.GetKey fields p = .ok v) := by
  have hcore : pathresolver.KeyExists (.obj fields) p = true ↔
      ∃ v, pathresolver.NavigateToKey (.obj fields) p = .ok v := by
    by_cases hp : p = ""
    · subst hp
      have h1 : pathresolver.KeyExists (.obj fields) "" = false := rfl
      have h2 : pathresolver.NavigateToKey (.obj fields) ""
          = .error .invalidPath := rfl
      rw [h1, h2]
      simp
    · rw [pathresolver.KeyExists_eq fields p hp]
      cases hn : pathresolver.NavigateToKey (.obj fields) p with
      | ok v =>
        simp only [hn]
        have hisome : (getVal fields p).isSome || true = true := by
          simp
        simp [hisome]
      | error e =>
        simp only [hn]
        have hlit : getVal fields p = none := by
          cases hg : getVal fields p with
          | none => rfl
          | some v =>
            rw [pathresolver.NavigateToKey_eq fields p hp, hg] at hn
            simp at hn
        rw [hlit]
        simp
  refine ⟨hcore, ?_⟩
  unfold operations.KeyExists operations.GetKey
  cases hn : pathresolver.NavigateToKey (.obj fields) p with
  | ok v =>
    have : pathresolver.KeyExists (.obj fields) p = true := by
      rw [hcore]
      exact ⟨v, hn⟩
    rw [this]
    simp
  | error e =>
    have hfalse : pathresolver.KeyExists (.obj fields) p = false := by
      cases hb : pathresolver.KeyExists (.obj fields) p with
      | false => rfl
      | true =>
        obtain ⟨v, hv⟩ := hcore.mp hb
        rw [hv] at hn
        exact Except.noConfusion hn
    rw [hfalse]
    cases e <;> simp

/-! ## Claim C6: failed mutations leave the on-disk document unchanged -/

/-- Claim C6: for every path that already exists (literal-or-split),
`AddKey` fails with `KEY_EXISTS` and the on-disk document is unchanged;
more generally, every mutating operation that fails before its single
save leaves the on-disk file unchanged (each `run*` function gives the
file content after the operation, which performs its one `SaveJSON` only
on success). -/
theorem C6_add_existing_fails (st : Obj) (p : String) (v : JValue)
    (h : pathresolver.KeyExists (.obj st) p = true) :
    operations.AddKey st p v = .error .keyExists ∧
    operations.runAddKey st p v = st ∧
    (∀ (st2 : Obj) (p2 : String) (v2 : JValue) (e : operations.OpErr),
      operations.AddKey st2 p2 v2 = .error e →
        operations.runAddKey st2 p2 v2 = st2) ∧
    (∀ (st2 : Obj) (p2 : String) (v2 : JValue) (e : operations.OpErr),
      operations.UpdateKey st2 p2 v2 = .error e →
        operations.runUpdateKey st2 p2 v2 = st2) ∧
    (∀ (st2 : Obj) (p2 : String) (e : operations.OpErr),
      operations.RemoveKey st2 p2 = .error e →
        operations.runRemoveKey st2 p2 = st2) ∧
    (∀ (st2 : Obj) (o2 n2 : String) (e : operations.OpErr),
      operations.RenameKey st2 o2 n2 = .error e →
        operations.runRenameKey st2 o2 n2 = st2) := by
  have hadd : operations.AddKey st p v = .error .keyExists := by
    unfold operations.AddKey
    rw [h]
    rfl
  refine ⟨hadd, ?_, ?_, ?_, ?_, ?_⟩
  · unfold operations.runAddKey
    rw [hadd]
  · intro st2 p2 v2 e he
    unfold operations.runAddKey
    rw [he]
  · intro st2 p2 v2 e he
    unfold operations.runUpdateKey
    rw [he]
  · intro st2 p2 e he
    unfold operations.runRemoveKey
    rw [he]
  · intro st2 o2 n2 e he
    unfold operations.runRenameKey
    rw [he]

/-- Witness for C6 at the document `{"nested": {"key": 1}}` and the
existing split path `"nested.key"`. -/
theorem C6_witness :
    operations.AddKey [("nested", .obj [("key", .num 1)])] "nested.key"
        .null = .error .keyExists ∧
    operations.runAddKey [("nested", .obj [("key", .num 1)])] "nested.key"
        .null = [("nested", .obj [("key", .num 1)])] ∧
    (∀ (st2 : Obj) (p2 : String) (v2 : JValue) (e : operations.OpErr),
      operations.AddKey st2 p2 v2 = .error e →
        operations.runAddKey st2 p2 v2 = st2) ∧
    (∀ (st2 : Obj) (p2 : String) (v2 : JValue) (e : operations.OpErr),
      operations.UpdateKey st2 p2 v2 = .error e →
        operations.runUpdateKey st2 p2 v2 = st2) ∧
    (∀ (st2 : Obj) (p2 : String) (e : operations.OpErr),
      operations.RemoveKey st2 p2 = .error e →
        operations.runRemoveKey st2 p2 = st2) ∧
    (∀ (st2 : Obj) (o2 n2 : String) (e : operations.OpErr),
      operations.RenameKey st2 o2 n2 = .error e →
        operations.runRenameKey st2 o2 n2 = st2) :=
  C6_add_existing_fails [("nested", .obj [("key", .num 1)])] "nested.key"
    .null rfl

/-! ## Claim C8: cache semantics of LoadJSON and SaveJSON -/

/-- Claim C8: `LoadJSON` with `useCache = true` returns the cached
document without re-reading exactly when a cache entry exists whose
recorded modification time equals the file's current modification time;
otherwise it re-reads (updating the cache).  After a `SaveJSON`, the
cache holds the just-written document and newly observed modification
time, so a subsequent cached load returns it without re-reading, while an
externally modified file (different modification time) forces a
re-read. -/
theorem C8_cache_semantics :
    (∀ (h : jsonhandler.Handler) (fs : jsonhandler.FSState)
       (c content : Obj) (m : Nat),
      h.cachedData = some c → fs.file = some (content, m) →
      h.fileMTime = m →
      jsonhandler.LoadJSON h fs true = .ok (c, h, false)) ∧
    (∀ (h : jsonhandler.Handler) (fs : jsonhandler.FSState)
       (content : Obj) (m : Nat),
      fs.file = some (content, m) → h.fileMTime ≠ m →
      jsonhandler.LoadJSON h fs true
        = .ok (content, ⟨some content, m⟩, true)) ∧
    (∀ (h : jsonhandler.Handler) (fs : jsonhandler.FSState)
       (content : Obj) (m : Nat) (doc : Obj) (h2 : jsonhandler.Handler),
      fs.file = some (content, m) →
      jsonhandler.LoadJSON h fs true = .ok (doc, h2, false) →
      h.cachedData = some doc ∧ h.fileMTime = m ∧ h2 = h) ∧
    (∀ (h : jsonhandler.Handler) (fs : jsonhandler.FSState)
       (d : Obj) (m : Nat),
      jsonhandler.LoadJSON ((jsonhandler.SaveJSON h fs d m).1)
          ((jsonhandler.SaveJSON h fs d m).2) true
        = .ok (d, (jsonhandler.SaveJSON h fs d m).1, false)) ∧
    (∀ (h : jsonhandler.Handler) (fs : jsonhandler.FSState)
       (d : Obj) (m : Nat) (c2 : Obj) (m2 : Nat),
      m2 ≠ m →
      jsonhandler.LoadJSON ((jsonhandler.SaveJSON h fs d m).1)
          ⟨some (c2, m2)⟩ true
        = .ok (c2, ⟨some c2, m2⟩, true)) := by
  refine ⟨?_, ?_, ?_, ?_, ?_⟩
  · intro h fs c content m hc hf hm
    unfold jsonhandler.LoadJSON
    rw [hf, hc]
    simp [hm]
  · intro h fs content m hf hm
    unfold jsonhandler.LoadJSON
    rw [hf]
    cases hc : h.cachedData with
    | none => rfl
    | some c => simp [hm]
  · intro h fs content m doc h2 hf hload
    unfold jsonhandler.LoadJSON at hload
    rw [hf] at hload
    cases hc : h.cachedData with
    | none =>
      simp only [hc] at hload
      simp at hload
    | some c =>
      simp only [hc] at hload
      by_cases hm : h.fileMTime = m
      · rw [if_pos hm] at hload
        have hinj := Except.ok.inj hload
        have hdoc : c = doc := congrArg Prod.fst hinj
        have hh2 : h2 = h := (congrArg (fun t => t.2.1) hinj).symm
        exact ⟨by rw [hdoc], hm, hh2⟩
      · rw [if_neg hm] at hload
        simp at hload
  · intro h fs d m
    unfold jsonhandler.LoadJSON jsonhandler.SaveJSON
    simp
  · intro h fs d m c2 m2 hm
    have hm' : ¬ m = m2 := fun e => hm (e.symm)
    unfold jsonhandler.LoadJSON jsonhandler.SaveJSON
    simp [hm']

/-- Witness for C8 at a concrete handler, file state and save. -/
theorem C8_witness :
    jsonhandler.LoadJSON ⟨some [("a", .num 1)], 7⟩
        ⟨some ([("b", .num 2)], 7)⟩ true
      = .ok ([("a", .num 1)], ⟨some [("a", .num 1)], 7⟩, false) :=
  C8_cache_semantics.1 ⟨some [("a", .num 1)], 7⟩
    ⟨some ([("b", .num 2)], 7)⟩ [("a", .num 1)] [("b", .num 2)] 7
    rfl rfl rfl

/-! ## Claim C2: update on existing paths -/

theorem SetValueAtPath_single (o : Obj) (s : String) (hs : s ≠ "")
    (hd : '.' ∉ s.data) (v : JValue) :
    pathresolver.SetValueAtPath o s v true = .ok (setVal o s v) := by
  have hsplit : pathresolver.SplitPath s = [s] :=
    pathresolver.SplitPath_no_dot s hs hd
  unfold pathresolver.SetValueAtPath pathresolver.CreateNestedPath
  rw [if_neg hs]
  simp only [hsplit]
  simp [pathresolver.createIntermediates, pathresolver.modifyAtLoc,
    List.dropLast, List.getLastD]

theorem KeyExists_single_absent (o : Obj) (s : String) (hs : s ≠ "")
    (hd : '.' ∉ s.data) (hg : getVal o s = none) :
    pathresolver.KeyExists (.obj o) s = false := by
  have hsplit : pathresolver.SplitPath s = [s] :=
    pathresolver.SplitPath_no_dot s hs hd
  have hnav : pathresolver.NavigateToKey (.obj o) s
      = .error (.keyNotFound s) := by
    rw [pathresolver.NavigateToKey_eq o s hs, hg, hsplit]
    simp [pathresolver.navSplit, hg]
  rw [pathresolver.KeyExists_eq o s hs, hg, hnav]
  simp

/-- Counterexample to C5 as stated: in `{"a": 1}` with `old = "a"`
(which exists) and `new = "a.b"` (distinct, and not existing),
`RenameKey` fails (creating `"a.b"` conflicts with the scalar at `"a"`
while `"a"` is still present), whereas the sequence
`value = Get(old); Remove(old); Add(new, value)` succeeds and produces
`{"a": {"b": 1}}` — the observable outcomes differ. -/
theorem C5_counterexample :
    ("a" : String) ≠ "a.b" ∧
    pathresolver.KeyExists (.obj [("a", .num 1)]) "a" = true ∧
    pathresolver.KeyExists (.obj [("a", .num 1)]) "a.b" = false ∧
    operations.RenameKey [("a", .num 1)] "a" "a.b"
      = .error .renameKeyError ∧
    operations.seqRename [("a", .num 1)] "a" "a.b"
      = .ok [("a", .obj [("b", .num 1)])] :=
  ⟨by decide, rfl, rfl, rfl, rfl⟩


/-! ## Claim C9: syntax validation positions -/

theorem takeWhile_nl_of_not_mem (T : List Char) (h : '\n' ∉ T) :
    T.takeWhile (fun c => c != '\n') = T := by
  induction T with
  | nil => rfl
  | cons c rest ih =>
    have hc : c ≠ '\n' := fun e => h (by rw [e]; exact List.mem_cons_self _ _)
    have hr : '\n' ∉ rest := fun e => h (List.mem_cons_of_mem _ e)
    simp [List.takeWhile_cons, hc, ih hr]

theorem takeWhile_nl_append_of_mem (A B : List Char) (h : '\n' ∈ A) :
    (A ++ B).takeWhile (fun c => c != '\n')
      = A.takeWhile (fun c => c != '\n') := by
  induction A with
  | nil => exact absurd h (List.not_mem_nil _)
  | cons c rest ih =>
    by_cases hc : c = '\n'
    · subst hc
      simp [List.takeWhile_cons]
    · have hr : '\n' ∈ rest := by
        cases List.mem_cons.mp h with
        | inl e => exact absurd e.symm hc
        | inr e => exact e
      simp [List.takeWhile_cons, hc, ih hr]

theorem takeWhile_nl_append_of_not_mem (A B : List Char) (h : '\n' ∉ A) :
    (A ++ B).takeWhile (fun c => c != '\n')
      = A ++ B.takeWhile (fun c => c != '\n') := by
  induction A with
  | nil => rfl
  | cons c rest ih =>
    have hc : c ≠ '\n' := fun e => h (by rw [e]; exact List.mem_cons_self _ _)
    have hr : '\n' ∉ rest := fun e => h (List.mem_cons_of_mem _ e)
    simp [List.takeWhile_cons, hc, ih hr]

theorem glcAux_spec (cs : List Char) : ∀ (k line col : Nat),
    jsonhandler.glcAux cs k line col
      = (line + ((cs.take k).count '\n'),
         if '\n' ∈ cs.take k
         then 1 + ((cs.take k).reverse.takeWhile (fun c => c != '\n')).length
         else col + (cs.take k).length) := by
  induction cs with
  | nil =>
    intro k line col
    cases k with
    | zero => simp [jsonhandler.glcAux]
    | succ k => simp [jsonhandler.glcAux]
  | cons ch rest ih =>
    intro k line col
    cases k with
    | zero => simp [jsonhandler.glcAux]
    | succ k =>
      rw [List.take_succ_cons]
      by_cases hch : ch = '\n'
      · subst hch
        have hstep : jsonhandler.glcAux ('\n' :: rest) (k + 1) line col
            = jsonhandler.glcAux rest k (line + 1) 1 := by
          simp [jsonhandler.glcAux]
        rw [hstep, ih k (line + 1) 1]
        have hrev : (('\n' : Char) :: rest.take k).reverse
            = (rest.take k).reverse ++ ['\n'] := by simp
        rw [Prod.mk.injEq]
        constructor
        · have : (('\n' : Char) :: rest.take k).count '\n'
              = (rest.take k).count '\n' + 1 := by
            simp [List.count_cons]
          rw [this]
          omega
        · by_cases hm : '\n' ∈ rest.take k
          · have htw : ((('\n' : Char) :: rest.take k).reverse.takeWhile
                (fun c => c != '\n'))
                = ((rest.take k).reverse.takeWhile (fun c => c != '\n')) := by
              rw [hrev]
              exact takeWhile_nl_append_of_mem _ _ (List.mem_reverse.mpr hm)
            have hmem2 : '\n' ∈ ('\n' : Char) :: rest.take k :=
              List.mem_cons_self _ _
            simp only [hm, if_true, hmem2, htw]
          · have htw : ((('\n' : Char) :: rest.take k).reverse.takeWhile
                (fun c => c != '\n'))
                = (rest.take k).reverse := by
              rw [hrev]
              rw [takeWhile_nl_append_of_not_mem _ _
                (fun e => hm (List.mem_reverse.mp e))]
              simp [List.takeWhile_cons]
            have hmem2 : '\n' ∈ ('\n' : Char) :: rest.take k :=
              List.mem_cons_self _ _
            simp only [hm, if_false, hmem2, if_true, htw]
            simp
      · have hstep : jsonhandler.glcAux (ch :: rest) (k + 1) line col
            = jsonhandler.glcAux rest k line (col + 1) := by
          simp [jsonhandler.glcAux, hch]
        rw [hstep, ih k line (col + 1)]
        have hrev : (ch :: rest.take k).reverse
            = (rest.take k).reverse ++ [ch] := by simp
        have hcnt : (ch :: rest.take k).count '\n'
            = (rest.take k).count '\n' := by
          simp [List.count_cons, fun e => hch e]
        have hmem : ('\n' ∈ ch :: rest.take k) ↔ ('\n' ∈ rest.take k) := by
          constructor
          · intro hx
            cases List.mem_cons.mp hx with
            | inl e => exact absurd e.symm hch
            | inr e => exact e
          · exact fun e => List.mem_cons_of_mem _ e
        rw [Prod.mk.injEq]
        constructor
        · rw [hcnt]
        · by_cases hm : '\n' ∈ rest.take k
          · have htw : ((ch :: rest.take k).reverse.takeWhile
                (fun c => c != '\n'))
                = ((rest.take k).reverse.takeWhile (fun c => c != '\n')) := by
              rw [hrev]
              exact takeWhile_nl_append_of_mem _ _ (List.mem_reverse.mpr hm)
            simp only [hm, if_true, hmem.mpr hm, htw]
          · have hm2 : ¬ '\n' ∈ ch :: rest.take k := fun e => hm (hmem.mp e)
            simp only [hm, if_false, hm2, List.length_cons]
            omega

theorem getLineColumn_eq_spec (data : List Char) (off : Nat) :
    jsonhandler.getLineColumn data off = jsonhandler.specLineCol data off := by
  unfold jsonhandler.getLineColumn jsonhandler.specLineCol
  rw [glcAux_spec data off 1 1]
  by_cases hm : '\n' ∈ data.take off
  · simp only [hm, if_true]
  · simp only [hm, if_false]
    rw [takeWhile_nl_of_not_mem _ (fun e => hm (List.mem_reverse.mp e))]
    simp

/-- Claim C9: syntax validation reports an empty file as invalid with
error type `PARSE_ERROR` at line 1, column 1; and for every malformed
input whose parser error carries a byte offset, the reported position is
the 1-based line and column obtained by counting line feeds (resetting
the column after each) over the bytes up to that offset (`specLineCol`,
modelled from the spec's words). -/
theorem C9_validate_positions :
    (∀ parse, jsonhandler.ValidateJSONContent (some []) parse
        = ⟨false, "PARSE_ERROR", some ⟨1, 1⟩⟩) ∧
    (∀ (data : List Char) (off : Nat), data ≠ [] →
      jsonhandler.ValidateJSONContent (some data) (.errAt off)
        = ⟨false, "PARSE_ERROR",
            some ⟨(jsonhandler.specLineCol data off).1,
                  (jsonhandler.specLineCol data off).2⟩⟩) := by
  constructor
  · intro parse
    rfl
  · intro data off hne
    have hlen : ¬ data.length = 0 := by
      intro e
      exact hne (List.length_eq_zero.mp e)
    have hred : jsonhandler.ValidateJSONContent (some data) (.errAt off)
        = ⟨false, "PARSE_ERROR",
            some ⟨(jsonhandler.getLineColumn data off).1,
                  (jsonhandler.getLineColumn data off).2⟩⟩ := by
      unfold jsonhandler.ValidateJSONContent
      simp [hlen]
    rw [hred, getLineColumn_eq_spec]

/-- Witness for C9: a parser error at offset 3 of `['{', LF, 'x']` is
reported at line 2, column 2. -/
theorem C9_witness :
    jsonhandler.ValidateJSONContent (some ['\x7b', '\n', 'x'])
        (.errAt 3)
      = ⟨false, "PARSE_ERROR",
          some ⟨(jsonhandler.specLineCol ['\x7b', '\n', 'x'] 3).1,
                (jsonhandler.specLineCol ['\x7b', '\n', 'x'] 3).2⟩⟩ :=
  C9_validate_positions.2 ['\x7b', '\n', 'x'] 3 (by decide)

/-! ## Walking and modification lemmas for the resolver -/

theorem setVal_setVal (o : Obj) (k : String) (x y : JValue) :
    setVal (setVal o k x) k y = setVal o k y := by
  induction o with
  | nil => simp [setVal]
  | cons hd tl ih =>
    obtain ⟨k0, v0⟩ := hd
    by_cases h0 : k0 = k
    · simp [setVal, h0]
    · simp [setVal, h0, ih]

theorem setVal_id (o : Obj) (k : String) (v : JValue)
    (h : getVal o k = some v) : setVal o k v = o := by
  induction o with
  | nil => simp [getVal] at h
  | cons hd tl ih =>
    obtain ⟨k0, v0⟩ := hd
    by_cases h0 : k0 = k
    · subst h0
      simp [getVal] at h
      simp [setVal, h]
    · simp [getVal, h0] at h
      simp [setVal, h0, ih h]

namespace pathresolver

theorem navSplit_ok_irrel (ks : List String) :
    ∀ (cur : JValue) (w1 w2 : List String) (p1 p2 : String) (v : JValue),
      navSplit cur ks w1 p1 = .ok v → navSplit cur ks w2 p2 = .ok v := by
  induction ks with
  | nil =>
    intro cur w1 w2 p1 p2 v h
    simp [navSplit] at h ⊢
    exact h
  | cons k rest ih =>
    intro cur w1 w2 p1 p2 v h
    match cur with
    | .str s => simp [navSplit] at h
    | .num n => simp [navSplit] at h
    | .bool b => simp [navSplit] at h
    | .null => simp [navSplit] at h
    | .arr xs => simp [navSplit] at h
    | .obj fields =>
      cases hg : getVal fields k with
      | some u =>
        rw [navSplit, hg] at h
        rw [navSplit, hg]
        exact ih u _ _ _ _ v h
      | none =>
        rw [navSplit, hg] at h
        exact Except.noConfusion h

theorem navSplit_append_of_ok (xs : List String) :
    ∀ (ys : List String) (cur : JValue) (w : List String) (p : String)
      (u : JValue),
      navSplit cur xs w p = .ok u →
      navSplit cur (xs ++ ys) w p = navSplit u ys (w ++ xs) p := by
  induction xs with
  | nil =>
    intro ys cur w p u h
    simp [navSplit] at h
    subst h
    simp
  | cons k rest ih =>
    intro ys cur w p u h
    match cur with
    | .str s => simp [navSplit] at h
    | .num n => simp [navSplit] at h
    | .bool b => simp [navSplit] at h
    | .null => simp [navSplit] at h
    | .arr xs => simp [navSplit] at h
    | .obj fields =>
      cases hg : getVal fields k with
      | some t =>
        rw [navSplit, hg] at h
        rw [List.cons_append, navSplit, hg]
        show navSplit t (rest ++ ys) (w ++ [k]) p
            = navSplit u ys (w ++ k :: rest) p
        rw [ih ys t (w ++ [k]) p u h]
        have harr : (w ++ [k]) ++ rest = w ++ k :: rest := by simp
        rw [harr]
      | none =>
        rw [navSplit, hg] at h
        exact Except.noConfusion h

theorem navSplit_singleton_obj (doc : Obj) (x : String)
    (w : List String) (p : String) (v : JValue)
    (h : navSplit (.obj doc) [x] w p = .ok v) : getVal doc x = some v := by
  cases hg : getVal doc x with
  | some t =>
    rw [navSplit, hg] at h
    have h' : Except.ok (ε := NavErr) t = Except.ok v := h
    injection h' with h2
    rw [h2]
  | none =>
    rw [navSplit, hg] at h
    exact Except.noConfusion h

theorem navSplit_start_obj (ls : List String) (u : JValue)
    (w : List String) (p : String) (sub : Obj)
    (h : navSplit u ls w p = .ok (.obj sub)) : ∃ uf, u = JValue.obj uf := by
  cases ls with
  | nil =>
    simp [navSplit] at h
    exact ⟨sub, h⟩
  | cons l ls' =>
    match u with
    | .str s => simp [navSplit] at h
    | .num n => simp [navSplit] at h
    | .bool b => simp [navSplit] at h
    | .null => simp [navSplit] at h
    | .arr xs => simp [navSplit] at h
    | .obj uf => exact ⟨uf, rfl⟩

theorem modifyAtLoc_walk (L : List String) :
    ∀ (doc sub : Obj) (f : Obj → Obj) (w : List String) (p : String)
      (w2 : List String) (p2 : String),
      navSplit (.obj doc) L w p = .ok (.obj sub) →
      navSplit (.obj (modifyAtLoc doc L f)) L w2 p2 = .ok (.obj (f sub)) := by
  induction L with
  | nil =>
    intro doc sub f w p w2 p2 h
    simp [navSplit] at h
    subst h
    simp [navSplit, modifyAtLoc]
  | cons k ls ih =>
    intro doc sub f w p w2 p2 h
    cases hg : getVal doc k with
    | some u =>
      rw [navSplit, hg] at h
      have h' : navSplit u ls (w ++ [k]) p = .ok (.obj sub) := h
      obtain ⟨uf, rfl⟩ := navSplit_start_obj ls u (w ++ [k]) p sub h'
      have hmod : modifyAtLoc doc (k :: ls) f
          = setVal doc k (.obj (modifyAtLoc uf ls f)) := by
        rw [modifyAtLoc, hg]
      rw [hmod, navSplit, getVal_setVal_self]
      exact ih uf sub f (w ++ [k]) p (w2 ++ [k]) p2 h'
    | none =>
      rw [navSplit, hg] at h
      exact Except.noConfusion h

theorem modifyAtLoc_compose (L : List String) :
    ∀ (doc sub : Obj) (f g : Obj → Obj) (w : List String) (p : String),
      navSplit (.obj doc) L w p = .ok (.obj sub) →
      modifyAtLoc (modifyAtLoc doc L f) L g
        = modifyAtLoc doc L (fun o => g (f o)) := by
  induction L with
  | nil =>
    intro doc sub f g w p _
    simp [modifyAtLoc]
  | cons k ls ih =>
    intro doc sub f g w p h
    cases hg : getVal doc k with
    | some u =>
      rw [navSplit, hg] at h
      have h' : navSplit u ls (w ++ [k]) p = .ok (.obj sub) := h
      obtain ⟨uf, rfl⟩ := navSplit_start_obj ls u (w ++ [k]) p sub h'
      have hfirst : modifyAtLoc doc (k :: ls) f
          = setVal doc k (.obj (modifyAtLoc uf ls f)) := by
        rw [modifyAtLoc, hg]
      have hsecond : modifyAtLoc (setVal doc k (.obj (modifyAtLoc uf ls f)))
          (k :: ls) g
          = setVal (setVal doc k (.obj (modifyAtLoc uf ls f))) k
              (.obj (modifyAtLoc (modifyAtLoc uf ls f) ls g)) := by
        rw [modifyAtLoc, getVal_setVal_self]
      have hthird : modifyAtLoc doc (k :: ls) (fun o => g (f o))
          = setVal doc k (.obj (modifyAtLoc uf ls (fun o => g (f o)))) := by
        rw [modifyAtLoc, hg]
      rw [hfirst, hsecond, setVal_setVal,
        ih uf sub f g (w ++ [k]) p h', hthird]
    | none =>
      rw [navSplit, hg] at h
      exact Except.noConfusion h

theorem getVal_modifyAtLoc_ne (doc : Obj) (q : String) (ls : List String)
    (f : Obj → Obj) (p : String) (hpq : p ≠ q) :
    getVal (modifyAtLoc doc (q :: ls) f) p = getVal doc p := by
  rw [modifyAtLoc]
  cases hg : getVal doc q with
  | some u =>
    match u with
    | .obj uf => exact getVal_setVal_ne doc q _ p hpq
    | .str s => rfl
    | .num n => rfl
    | .bool b => rfl
    | .null => rfl
    | .arr xs => rfl
  | none => rfl

theorem createIntermediates_exists (L : List String) :
    ∀ (doc sub : Obj) (w : List String) (p : String) (w2 : List String),
      navSplit (.obj doc) L w p = .ok (.obj sub) →
      createIntermediates doc L w2 = .ok doc := by
  induction L with
  | nil => intro doc sub w p w2 _; rfl
  | cons k ls ih =>
    intro doc sub w p w2 h
    cases hg : getVal doc k with
    | some u =>
      rw [navSplit, hg] at h
      have h' : navSplit u ls (w ++ [k]) p = .ok (.obj sub) := h
      obtain ⟨uf, rfl⟩ := navSplit_start_obj ls u (w ++ [k]) p sub h'
      have hci : createIntermediates doc (k :: ls) w2
          = match createIntermediates uf ls (w2 ++ [k]) with
            | .ok sub2 => .ok (setVal doc k (.obj sub2))
            | .error e => .error e := by
        rw [createIntermediates, hg]
      rw [hci, ih uf sub (w ++ [k]) p (w2 ++ [k]) h']
      show Except.ok (setVal doc k (JValue.obj uf)) = Except.ok doc
      rw [setVal_id doc k (.obj uf) hg]
    | none =>
      rw [navSplit, hg] at h
      exact Except.noConfusion h

end pathresolver

namespace pathresolver

theorem splitDotsAux_mem_no_dot (cs : List Char) :
    ∀ (acc : List Char), '.' ∉ acc →
      ∀ s ∈ splitDotsAux cs acc, '.' ∉ s.data := by
  induction cs with
  | nil =>
    intro acc hacc s hs
    simp [splitDotsAux] at hs
    subst hs
    intro hmem
    exact hacc (List.mem_reverse.mp hmem)
  | cons c rest ih =>
    intro acc hacc s hs
    by_cases hc : c = '.'
    · subst hc
      simp [splitDotsAux] at hs
      cases hs with
      | inl h =>
        subst h
        intro hmem
        exact hacc (List.mem_reverse.mp hmem)
      | inr h => exact ih [] (List.not_mem_nil _) s h
    · rw [show splitDotsAux (c :: rest) acc = splitDotsAux rest (c :: acc)
        from by simp [splitDotsAux, hc]] at hs
      refine ih (c :: acc) ?_ s hs
      intro hmem
      cases List.mem_cons.mp hmem with
      | inl h => exact hc h.symm
      | inr h => exact hacc h

theorem SplitPath_mem_no_dot (p : String) :
    ∀ s ∈ SplitPath p, '.' ∉ s.data := by
  unfold SplitPath
  by_cases hp : p = ""
  · simp [hp]
  · rw [if_neg hp]
    exact splitDotsAux_mem_no_dot p.data [] (List.not_mem_nil _)

theorem SplitPath_multi_has_dot (p : String) (ks : List String)
    (h : SplitPath p = ks) (hlen : 2 ≤ ks.length) : '.' ∈ p.data := by
  have hp : p ≠ "" := by
    intro e
    subst e
    rw [show SplitPath "" = [] from rfl] at h
    rw [← h] at hlen
    simp at hlen
  by_contra hnd
  rw [SplitPath_no_dot p hp hnd] at h
  rw [← h] at hlen
  simp at hlen

theorem NavigateToKey_joinDots (doc parentObj : Obj) (Psegs : List String)
    (p : String)
    (hppne : joinDots Psegs ≠ "")
    (hround : SplitPath (joinDots Psegs) = Psegs)
    (hwalk : navSplit (.obj doc) Psegs [] p = .ok (.obj parentObj))
    (hshadow : 2 ≤ Psegs.length → getVal doc (joinDots Psegs) = none) :
    NavigateToKey (.obj doc) (joinDots Psegs) = .ok (.obj parentObj) ∧
    (if (getVal doc (joinDots Psegs)).isSome then [joinDots Psegs]
      else Psegs) = Psegs := by
  match Psegs with
  | [] => exact absurd rfl hppne
  | [x] =>
    have hx : joinDots [x] = x := rfl
    have hg : getVal doc x = some (.obj parentObj) :=
      navSplit_singleton_obj doc x [] p (.obj parentObj) hwalk
    rw [hx] at hppne ⊢
    constructor
    · rw [NavigateToKey_eq doc x hppne, hg]
    · rw [hg]
      simp
  | x :: y :: zs =>
    have hsh : getVal doc (joinDots (x :: y :: zs)) = none := by
      apply hshadow
      simp
    constructor
    · rw [NavigateToKey_eq doc _ hppne, hsh, hround]
      exact navSplit_ok_irrel _ _ _ _ _ _ _ hwalk
    · rw [hsh]
      simp

theorem getLastD_append_single (l : List String) (a : String) :
    ∀ d, (l ++ [a]).getLastD d = a := by
  induction l with
  | nil => intro d; rfl
  | cons x xs ih =>
    intro d
    rw [List.cons_append, List.getLastD_cons]
    exact ih x

theorem NavigateToParent_resolved (doc parentObj : Obj) (p : String)
    (Psegs : List String) (klast : String)
    (hp : p ≠ "")
    (hsp : SplitPath p = Psegs ++ [klast])
    (hPne : Psegs ≠ [])
    (hppne : joinDots Psegs ≠ "")
    (hround : SplitPath (joinDots Psegs) = Psegs)
    (hwalk : navSplit (.obj doc) Psegs [] p = .ok (.obj parentObj))
    (hshadow : 2 ≤ Psegs.length → getVal doc (joinDots Psegs) = none) :
    NavigateToParent (.obj doc) p = .ok (Psegs, klast, parentObj) := by
  obtain ⟨q, qs, rfl⟩ := List.exists_cons_of_ne_nil hPne
  obtain ⟨t0, ts, ht⟩ := List.exists_cons_of_ne_nil
    (show qs ++ [klast] ≠ [] by simp)
  have hsp2 : SplitPath p = q :: t0 :: ts := by
    rw [hsp, List.cons_append, ht]
  have hqt : q :: t0 :: ts = (q :: qs) ++ [klast] := by
    rw [List.cons_append, ← ht]
  have hdl : (q :: t0 :: ts).dropLast = q :: qs := by
    rw [hqt]
    exact List.dropLast_concat
  have hgl : (q :: t0 :: ts).getLastD "" = klast := by
    rw [hqt]
    exact getLastD_append_single (q :: qs) klast ""
  obtain ⟨hnavP, hlocP⟩ := NavigateToKey_joinDots doc parentObj (q :: qs) p
    hppne hround hwalk hshadow
  unfold NavigateToParent
  rw [if_neg hp]
  simp only [hsp2, hdl, hgl, hnavP, hlocP]

theorem NavigateToKey_split_resolved (doc parentObj : Obj) (p : String)
    (Psegs : List String) (klast : String) (w : JValue)
    (hp : p ≠ "")
    (hsp : SplitPath p = Psegs ++ [klast])
    (hwalk : navSplit (.obj doc) Psegs [] p = .ok (.obj parentObj))
    (hlit : getVal doc p = none)
    (hk : getVal parentObj klast = some w) :
    NavigateToKey (.obj doc) p = .ok w ∧ KeyExists (.obj doc) p = true := by
  have hnav : NavigateToKey (.obj doc) p = .ok w := by
    rw [NavigateToKey_eq doc p hp, hlit, hsp,
      navSplit_append_of_ok Psegs [klast] (.obj doc) [] p (.obj parentObj)
        hwalk]
    rw [navSplit, hk]
    rfl
  refine ⟨hnav, ?_⟩
  rw [KeyExists_eq doc p hp, hlit, hnav]
  simp

theorem KeyExists_split_absent (doc parentObj : Obj) (p : String)
    (Psegs : List String) (klast : String)
    (hp : p ≠ "")
    (hsp : SplitPath p = Psegs ++ [klast])
    (hwalk : navSplit (.obj doc) Psegs [] p = .ok (.obj parentObj))
    (hlit : getVal doc p = none)
    (hk : getVal parentObj klast = none) :
    KeyExists (.obj doc) p = false := by
  have hnav : NavigateToKey (.obj doc) p = .error (.keyNotFound p) := by
    rw [NavigateToKey_eq doc p hp, hlit, hsp,
      navSplit_append_of_ok Psegs [klast] (.obj doc) [] p (.obj parentObj)
        hwalk]
    rw [navSplit, hk]
  rw [KeyExists_eq doc p hp, hlit, hnav]
  simp

theorem RemoveKeyAtPath_resolved (doc parentObj : Obj) (p : String)
    (Psegs : List String) (klast : String) (w : JValue)
    (hp : p ≠ "")
    (hsp : SplitPath p = Psegs ++ [klast])
    (hPne : Psegs ≠ [])
    (hppne : joinDots Psegs ≠ "")
    (hround : SplitPath (joinDots Psegs) = Psegs)
    (hwalk : navSplit (.obj doc) Psegs [] p = .ok (.obj parentObj))
    (hshadow : 2 ≤ Psegs.length → getVal doc (joinDots Psegs) = none)
    (hlit : getVal doc p = none)
    (hk : getVal parentObj klast = some w) :
    RemoveKeyAtPath doc p
      = .ok (w, modifyAtLoc doc Psegs (fun o => delVal o klast)) := by
  have hpar := NavigateToParent_resolved doc parentObj p Psegs klast hp hsp
    hPne hppne hround hwalk hshadow
  unfold RemoveKeyAtPath
  rw [if_neg hp, hlit, hpar]
  show (match getVal parentObj klast with
    | some v => Except.ok (v, modifyAtLoc doc Psegs fun o => delVal o klast)
    | none => Except.error (NavErr.keyNotFound p)) = _
  rw [hk]

theorem SetValueAtPath_create_resolved (doc sub : Obj) (pth : String)
    (L : List String) (klast : String) (v : JValue)
    (hp : pth ≠ "")
    (hsp : SplitPath pth = L ++ [klast])
    (hwalk : navSplit (.obj doc) L [] pth = .ok (.obj sub)) :
    SetValueAtPath doc pth v true
      = .ok (modifyAtLoc doc L (fun o => setVal o klast v)) := by
  have hcreate : CreateNestedPath doc pth = .ok doc := by
    unfold CreateNestedPath
    rw [if_neg hp, hsp, List.dropLast_concat]
    exact createIntermediates_exists L doc sub [] pth [] hwalk
  unfold SetValueAtPath
  show (match CreateNestedPath doc pth with
    | Except.error e => Except.error e
    | Except.ok data2 =>
      Except.ok (modifyAtLoc data2 (SplitPath pth).dropLast
        (fun o => setVal o ((SplitPath pth).getLastD "") v))) = _
  rw [hcreate]
  show Except.ok (modifyAtLoc doc (SplitPath pth).dropLast
      (fun o => setVal o ((SplitPath pth).getLastD "") v))
    = Except.ok (modifyAtLoc doc L (fun o => setVal o klast v))
  rw [hsp, List.dropLast_concat, getLastD_append_single L klast ""]

end pathresolver

namespace operations

theorem AddKey_ok_of_set (doc doc2 : Obj) (p : String) (v : JValue)
    (hex : pathresolver.KeyExists (.obj doc) p = false)
    (hset : pathresolver.SetValueAtPath doc p v true = .ok doc2) :
    AddKey doc p v = .ok doc2 := by
  unfold AddKey
  rw [hex, hset]
  rfl

theorem RemoveKey_ok_of (doc d : Obj) (p : String) (w : JValue)
    (hp : p ≠ "") (hex : pathresolver.KeyExists (.obj doc) p = true)
    (hrem : pathresolver.RemoveKeyAtPath doc p = .ok (w, d)) :
    RemoveKey doc p = .ok (w, d) := by
  unfold RemoveKey
  rw [if_neg hp, hex, hrem]
  rfl

theorem GetKey_ok_of_nav (doc : Obj) (p : String) (w : JValue)
    (hnav : pathresolver.NavigateToKey (.obj doc) p = .ok w) :
    GetKey doc p = .ok w := by
  unfold GetKey
  rw [hnav]

theorem RenameKey_ok_of (doc d2 d3 : Obj) (oldPath newPath : String)
    (w w2 : JValue)
    (hone : oldPath ≠ newPath) (hpo : oldPath ≠ "") (hpn : newPath ≠ "")
    (hexO : pathresolver.KeyExists (.obj doc) oldPath = true)
    (hexN : pathresolver.KeyExists (.obj doc) newPath = false)
    (hnavO : pathresolver.NavigateToKey (.obj doc) oldPath = .ok w)
    (hsetN : pathresolver.SetValueAtPath doc newPath w true = .ok d2)
    (hremO : pathresolver.RemoveKeyAtPath d2 oldPath = .ok (w2, d3)) :
    RenameKey doc oldPath newPath = .ok d3 := by
  unfold RenameKey
  rw [if_neg hone, if_neg hpo, if_neg hpn, hexO, hexN]
  simp only [hnavO, hsetN, hremO]
  rfl

theorem seqRename_ok_of (doc d1 d4 : Obj) (oldPath newPath : String)
    (w wr : JValue)
    (hGet : GetKey doc oldPath = .ok w)
    (hRem : RemoveKey doc oldPath = .ok (wr, d1))
    (hAdd : AddKey d1 newPath w = .ok d4) :
    seqRename doc oldPath newPath = .ok d4 := by
  unfold seqRename
  simp only [hGet, hRem, hAdd]

end operations

/-- Claim C5 as amended: `RenameKey(p, p)` always fails with `SAME_KEY`
(the check precedes any load or save, so the file is untouched); and
`RenameKey(old, new)` where `old` exists and `new` does not produces
exactly the document of the sequence
`value = Get(old); Remove(old); Add(new, value)` whenever the two paths
do not interfere — proved (a) for distinct root-level keys and (b) for
sibling paths `old = P.ko`, `new = P.kn` under a common split-resolvable
unshadowed parent `P`, which covers dotted renames such as
`dashboard.title → dashboard.heading`.  When creating the new path
passes through the old value the two sides diverge (the
counterexample). -/
theorem C5_amended :
    (∀ (doc : Obj) (p : String),
      operations.RenameKey doc p p = .error .sameKey) ∧
    (∀ (doc : Obj) (oldPath newPath : String) (v : JValue),
      oldPath ≠ newPath → oldPath ≠ "" → newPath ≠ "" →
      '.' ∉ oldPath.data → '.' ∉ newPath.data →
      getVal doc oldPath = some v → getVal doc newPath = none →
      operations.RenameKey doc oldPath newPath
          = operations.seqRename doc oldPath newPath ∧
      operations.RenameKey doc oldPath newPath
          = .ok (setVal (delVal doc oldPath) newPath v)) ∧
    (∀ (doc parentObj : Obj) (oldPath newPath : String)
       (Psegs : List String) (ko kn : String) (w : JValue),
      pathresolver.SplitPath oldPath = Psegs ++ [ko] →
      pathresolver.SplitPath newPath = Psegs ++ [kn] →
      Psegs ≠ [] →
      pathresolver.joinDots Psegs ≠ "" →
      pathresolver.SplitPath (pathresolver.joinDots Psegs) = Psegs →
      ko ≠ kn →
      pathresolver.navSplit (.obj doc) Psegs [] oldPath
          = .ok (.obj parentObj) →
      getVal doc oldPath = none →
      getVal doc newPath = none →
      (2 ≤ Psegs.length →
        getVal doc (pathresolver.joinDots Psegs) = none) →
      getVal parentObj ko = some w →
      getVal parentObj kn = none →
      operations.RenameKey doc oldPath newPath
          = operations.seqRename doc oldPath newPath ∧
      operations.RenameKey doc oldPath newPath
          = .ok (pathresolver.modifyAtLoc doc Psegs
              (fun o => delVal (setVal o kn w) ko))) := by
  refine ⟨?_, ?_, ?_⟩
  · intro doc p
    unfold operations.RenameKey
    rw [if_pos rfl]
  · intro doc oldPath newPath v hne hno hnn hdo hdn hex hnew
    have hnavO : pathresolver.NavigateToKey (.obj doc) oldPath = .ok v := by
      rw [pathresolver.NavigateToKey_eq doc oldPath hno, hex]
    have hexO : pathresolver.KeyExists (.obj doc) oldPath = true := by
      rw [pathresolver.KeyExists_eq doc oldPath hno, hex]
      simp
    have hexN : pathresolver.KeyExists (.obj doc) newPath = false :=
      KeyExists_single_absent doc newPath hnn hdn hnew
    have hsetN : pathresolver.SetValueAtPath doc newPath v true
        = .ok (setVal doc newPath v) :=
      SetValueAtPath_single doc newPath hnn hdn v
    have hremNew : pathresolver.RemoveKeyAtPath (setVal doc newPath v)
        oldPath = .ok (v, delVal (setVal doc newPath v) oldPath) := by
      unfold pathresolver.RemoveKeyAtPath
      rw [if_neg hno, getVal_setVal_ne doc newPath v oldPath hne, hex]
    have hrenameEq : operations.RenameKey doc oldPath newPath
        = .ok (delVal (setVal doc newPath v) oldPath) :=
      operations.RenameKey_ok_of doc (setVal doc newPath v) _ oldPath
        newPath v v hne hno hnn hexO hexN hnavO hsetN hremNew
    have hg2 : getVal (delVal doc oldPath) newPath = none := by
      rw [getVal_delVal_ne doc oldPath newPath (Ne.symm hne), hnew]
    have hremOld : pathresolver.RemoveKeyAtPath doc oldPath
        = .ok (v, delVal doc oldPath) := by
      unfold pathresolver.RemoveKeyAtPath
      rw [if_neg hno, hex]
    have hseq : operations.seqRename doc oldPath newPath
        = .ok (setVal (delVal doc oldPath) newPath v) :=
      operations.seqRename_ok_of doc (delVal doc oldPath) _ oldPath newPath
        v v (operations.GetKey_ok_of_nav doc oldPath v hnavO)
        (operations.RemoveKey_ok_of doc (delVal doc oldPath) oldPath v hno
          hexO hremOld)
        (operations.AddKey_ok_of_set (delVal doc oldPath)
          (setVal (delVal doc oldPath) newPath v) newPath v
          (KeyExists_single_absent (delVal doc oldPath) newPath hnn hdn hg2)
          (SetValueAtPath_single (delVal doc oldPath) newPath hnn hdn v))
    refine ⟨?_, ?_⟩
    · rw [hrenameEq, hseq,
        delVal_setVal_comm doc newPath oldPath v (Ne.symm hne)]
    · rw [hrenameEq,
        delVal_setVal_comm doc newPath oldPath v (Ne.symm hne)]
  · intro doc parentObj oldPath newPath Psegs ko kn w hsplitO hsplitN hPne
      hppne hround hkok hwalk hlitO hlitN hshadow hko hkn
    have hpo : oldPath ≠ "" := by
      intro e
      rw [e] at hsplitO
      rw [show pathresolver.SplitPath "" = [] from rfl] at hsplitO
      exact absurd hsplitO.symm (by simp)
    have hpn : newPath ≠ "" := by
      intro e
      rw [e] at hsplitN
      rw [show pathresolver.SplitPath "" = [] from rfl] at hsplitN
      exact absurd hsplitN.symm (by simp)
    have hone : oldPath ≠ newPath := by
      intro e
      rw [e, hsplitN] at hsplitO
      have := List.append_cancel_left hsplitO.symm
      simp at this
      exact hkok this
    obtain ⟨hnavO, hexO⟩ := pathresolver.NavigateToKey_split_resolved doc
      parentObj oldPath Psegs ko w hpo hsplitO hwalk hlitO hko
    have hwalkN : pathresolver.navSplit (.obj doc) Psegs [] newPath
        = .ok (.obj parentObj) :=
      pathresolver.navSplit_ok_irrel Psegs _ _ _ _ _ _ hwalk
    have hexN := pathresolver.KeyExists_split_absent doc parentObj newPath
      Psegs kn hpn hsplitN hwalkN hlitN hkn
    have hsetN := pathresolver.SetValueAtPath_create_resolved doc parentObj
      newPath Psegs kn w hpn hsplitN hwalkN
    obtain ⟨q, qs, rfl⟩ := List.exists_cons_of_ne_nil hPne
    have hqdf : '.' ∉ q.data := by
      refine pathresolver.SplitPath_mem_no_dot oldPath q ?_
      rw [hsplitO]
      exact List.mem_append_left _ (List.mem_cons_self _ _)
    have hdotO : '.' ∈ oldPath.data := by
      refine pathresolver.SplitPath_multi_has_dot oldPath
        ((q :: qs) ++ [ko]) hsplitO ?_
      simp
    have hdotN : '.' ∈ newPath.data := by
      refine pathresolver.SplitPath_multi_has_dot newPath
        ((q :: qs) ++ [kn]) hsplitN ?_
      simp
    have holdq : oldPath ≠ q := by
      intro e
      rw [e] at hdotO
      exact hqdf hdotO
    have hnewq : newPath ≠ q := by
      intro e
      rw [e] at hdotN
      exact hqdf hdotN
    have hshadowMod : ∀ (f : Obj → Obj), 2 ≤ (q :: qs).length →
        getVal (pathresolver.modifyAtLoc doc (q :: qs) f)
          (pathresolver.joinDots (q :: qs)) = none := by
      intro f hlen
      have hdotP : '.' ∈ (pathresolver.joinDots (q :: qs)).data :=
        pathresolver.SplitPath_multi_has_dot _ (q :: qs) hround hlen
      have hpq : pathresolver.joinDots (q :: qs) ≠ q := by
        intro e
        rw [e] at hdotP
        exact hqdf hdotP
      rw [pathresolver.getVal_modifyAtLoc_ne doc q qs f _ hpq]
      exact hshadow hlen
    -- rename side
    have hwalk2 := pathresolver.modifyAtLoc_walk (q :: qs) doc parentObj
      (fun o => setVal o kn w) [] oldPath [] oldPath hwalk
    have hlitO2 : getVal (pathresolver.modifyAtLoc doc (q :: qs)
        (fun o => setVal o kn w)) oldPath = none := by
      rw [pathresolver.getVal_modifyAtLoc_ne doc q qs _ oldPath holdq, hlitO]
    have hremO2 := pathresolver.RemoveKeyAtPath_resolved
      (pathresolver.modifyAtLoc doc (q :: qs) (fun o => setVal o kn w))
      (setVal parentObj kn w) oldPath (q :: qs) ko w hpo hsplitO hPne hppne
      hround hwalk2 (hshadowMod _) hlitO2
      (by rw [getVal_setVal_ne parentObj kn w ko hkok]; exact hko)
    have hrenameEq : operations.RenameKey doc oldPath newPath
        = .ok (pathresolver.modifyAtLoc
            (pathresolver.modifyAtLoc doc (q :: qs) (fun o => setVal o kn w))
            (q :: qs) (fun o => delVal o ko)) :=
      operations.RenameKey_ok_of doc _ _ oldPath newPath w w hone hpo hpn
        hexO hexN hnavO hsetN hremO2
    have hcompose2 := pathresolver.modifyAtLoc_compose (q :: qs) doc
      parentObj (fun o => setVal o kn w) (fun o => delVal o ko) [] oldPath
      hwalk
    -- sequence side
    have hremO := pathresolver.RemoveKeyAtPath_resolved doc parentObj
      oldPath (q :: qs) ko w hpo hsplitO hPne hppne hround hwalk hshadow
      hlitO hko
    have hwalk1 := pathresolver.modifyAtLoc_walk (q :: qs) doc parentObj
      (fun o => delVal o ko) [] oldPath [] newPath hwalk
    have hlitN1 : getVal (pathresolver.modifyAtLoc doc (q :: qs)
        (fun o => delVal o ko)) newPath = none := by
      rw [pathresolver.getVal_modifyAtLoc_ne doc q qs _ newPath hnewq, hlitN]
    have hexN1 := pathresolver.KeyExists_split_absent
      (pathresolver.modifyAtLoc doc (q :: qs) (fun o => delVal o ko))
      (delVal parentObj ko) newPath (q :: qs) kn hpn hsplitN hwalk1 hlitN1
      (by rw [getVal_delVal_ne parentObj ko kn (Ne.symm hkok)]; exact hkn)
    have hsetN1 := pathresolver.SetValueAtPath_create_resolved
      (pathresolver.modifyAtLoc doc (q :: qs) (fun o => delVal o ko))
      (delVal parentObj ko) newPath (q :: qs) kn w hpn hsplitN hwalk1
    have hseq : operations.seqRename doc oldPath newPath
        = .ok (pathresolver.modifyAtLoc
            (pathresolver.modifyAtLoc doc (q :: qs) (fun o => delVal o ko))
            (q :: qs) (fun o => setVal o kn w)) :=
      operations.seqRename_ok_of doc _ _ oldPath newPath w w
        (operations.GetKey_ok_of_nav doc oldPath w hnavO)
        (operations.RemoveKey_ok_of doc _ oldPath w hpo hexO hremO)
        (operations.AddKey_ok_of_set _ _ newPath w hexN1 hsetN1)
    have hcompose1 := pathresolver.modifyAtLoc_compose (q :: qs) doc
      parentObj (fun o => delVal o ko) (fun o => setVal o kn w) [] oldPath
      hwalk
    have hfun : (fun o => setVal (delVal o ko) kn w)
        = (fun o => delVal (setVal o kn w) ko) := by
      funext o
      rw [delVal_setVal_comm o kn ko w (Ne.symm hkok)]
    refine ⟨?_, ?_⟩
    · rw [hrenameEq, hseq, hcompose1, hcompose2, hfun]
    · rw [hrenameEq, hcompose2]

/-- Witness for C5 (amended): the sibling rename
`dashboard.title → dashboard.heading` in
`{"dashboard": {"title": "Dashboard", "welcome": "Hi"}}` agrees with
the get/remove/add sequence, and `RenameKey(p, p)` fails with
`SAME_KEY`. -/
theorem C5_witness :
    (operations.RenameKey
        [("dashboard", .obj [("title", .str "Dashboard"),
          ("welcome", .str "Hi")])]
        "dashboard.title" "dashboard.heading"
      = operations.seqRename
        [("dashboard", .obj [("title", .str "Dashboard"),
          ("welcome", .str "Hi")])]
        "dashboard.title" "dashboard.heading" ∧
     operations.RenameKey
        [("dashboard", .obj [("title", .str "Dashboard"),
          ("welcome", .str "Hi")])]
        "dashboard.title" "dashboard.heading"
      = .ok (pathresolver.modifyAtLoc
          [("dashboard", .obj [("title", .str "Dashboard"),
            ("welcome", .str "Hi")])]
          ["dashboard"]
          (fun o => delVal (setVal o "heading" (.str "Dashboard"))
            "title"))) ∧
    operations.RenameKey [("a", .num 1)] "x" "x" = .error .sameKey :=
  ⟨C5_amended.2.2
      [("dashboard", .obj [("title", .str "Dashboard"),
        ("welcome", .str "Hi")])]
      [("title", .str "Dashboard"), ("welcome", .str "Hi")]
      "dashboard.title" "dashboard.heading" ["dashboard"] "title" "heading"
      (.str "Dashboard")
      rfl rfl (by simp) (by decide) rfl (by decide) rfl rfl rfl
      (fun h => absurd h (by decide)) rfl rfl,
   C5_amended.1 [("a", .num 1)] "x"⟩
